import Mathlib

/-!
Verification of the aggregation-and-broadcast engine of a collectible-card
price tracker (source: dg.go).  The ledger is a pair of relational tables
(cards, prices); the aggregator is the SQL query of GetCardsForFrontend;
the distribution hub is the websocket Hub.  Prices (SQL DECIMAL) are
modelled as rationals, timestamps as integer seconds.
-/

namespace PokeScraper

/-- Row of the cards table (createTables: cards DDL / Go Card struct used as a row).
A surrogate id comes from a SERIAL counter; created_at and updated_at are
timestamps maintained by the insert / upsert. -/
structure CardRow where
  id : Nat
  name : String
  setName : String
  cardNumber : String
  rarity : String
  condition : String
  createdAt : Int
  updatedAt : Int
deriving DecidableEq

/-- Row of the prices table (createTables: prices DDL / Go Price struct). -/
structure PriceRow where
  cardId : Nat
  source : String
  price : ℚ
  currency : String
  url : String
  scrapedAt : Int
deriving DecidableEq

/-- Frontend card record produced by GetCardsForFrontend (Go Card struct as an
output view).  The emoji Image field is display-only and driven by iteration
over a Go map, whose order is not deterministic, so it is not modelled. -/
structure Card where
  id : Nat
  name : String
  setName : String
  cardNumber : String
  rarity : String
  condition : String
  price : ℚ
  change : ℚ
  changePercent : ℚ
  source : String
  createdAt : Int
  updatedAt : Int
deriving DecidableEq

/-- The relational state behind *sql.DB: the two tables plus the SERIAL
counter for cards.id. -/
structure Database where
  cards : List CardRow
  prices : List PriceRow
  nextCardId : Nat
deriving DecidableEq

def emptyDatabase : Database := ⟨[], [], 1⟩

/-- Input of InsertCard (the Card struct fields actually bound by its query). -/
structure CardInput where
  name : String
  setName : String
  cardNumber : String
  rarity : String
  condition : String
deriving DecidableEq

/-- Input of InsertPrice (the Price struct fields actually bound by its query;
scraped_at is stamped with the write-time clock, not taken from the input). -/
structure PriceInput where
  cardId : Nat
  source : String
  price : ℚ
  currency : String
  url : String
deriving DecidableEq

/-- The UNIQUE(name, set_name, card_number, condition) natural key of cards. -/
def sameKey (a : CardRow) (c : CardInput) : Bool :=
  a.name == c.name && a.setName == c.setName &&
    a.cardNumber == c.cardNumber && a.condition == c.condition

/-- InsertCard: INSERT INTO cards ... ON CONFLICT (natural key) DO UPDATE SET
updated_at = CURRENT_TIMESTAMP, rarity = EXCLUDED.rarity RETURNING id.
On conflict the existing row keeps its id and created_at; otherwise a fresh
row is inserted with a fresh SERIAL id. -/
def InsertCard (now : Int) (st : Database) (c : CardInput) : Nat × Database :=
  match st.cards.find? (fun a => sameKey a c) with
  | some a =>
    (a.id, { st with cards := st.cards.map (fun x =>
        if sameKey x c then { x with rarity := c.rarity, updatedAt := now } else x) })
  | none =>
    (st.nextCardId,
      { st with
        cards := st.cards ++
          [⟨st.nextCardId, c.name, c.setName, c.cardNumber, c.rarity, c.condition, now, now⟩],
        nextCardId := st.nextCardId + 1 })

/-- Errors the store can raise on an insert.  The prices DDL carries a foreign
key REFERENCES cards(id) and no other row constraint: the only way the
INSERT of InsertPrice is rejected is a dangling card_id.  There is no price
validation anywhere in the source. -/
inductive InsertError where
  | referentialError
deriving DecidableEq

def mkPriceRow (now : Int) (p : PriceInput) : PriceRow :=
  ⟨p.cardId, p.source, p.price, p.currency, p.url, now⟩

/-- InsertPrice: INSERT INTO prices (card_id, source, price, currency, url,
scraped_at) VALUES (..., time.Now()).  The Go function passes the price
through unchecked; the row is stamped with the current time. -/
def InsertPrice (now : Int) (st : Database) (p : PriceInput) : Except InsertError Database :=
  if st.cards.any (fun a => a.id == p.cardId) then
    Except.ok { st with prices := st.prices ++ [mkPriceRow now p] }
  else
    Except.error InsertError.referentialError

/-- Ingestion-loop treatment of a failed insert: the error is logged and the
cycle continues with the store unchanged (seedSampleData / scrape handlers). -/
def insertPriceSkip (now : Int) (st : Database) (p : PriceInput) : Database :=
  match InsertPrice now st p with
  | Except.ok st2 => st2
  | Except.error _ => st

/-- INTERVAL '1 hour' of the reference-price window, in seconds. -/
def lagSeconds : Int := 3600

/-- LIMIT 100 of the frontend query. -/
def queryLimit : Nat := 100

/-- DISTINCT ON (...) ORDER BY scraped_at DESC over a row group: the row with
the maximal capture timestamp (the first encountered one on ties, matching
an arbitrary but fixed choice for the underdetermined SQL row order). -/
def latestIn (ps : List PriceRow) : Option PriceRow :=
  ps.foldl (fun acc r =>
    match acc with
    | none => some r
    | some a => if a.scrapedAt < r.scrapedAt then some r else some a) none

def latestPriceIn (ps : List PriceRow) : ℚ :=
  ((latestIn ps).map PriceRow.price).getD 0

/-- previous_prices: among the rows of one (card, source) group, the latest of
those strictly older than MAX(scraped_at) - INTERVAL '1 hour'. -/
def prevIn (ps : List PriceRow) : Option PriceRow :=
  match latestIn ps with
  | none => none
  | some m => latestIn (ps.filter (fun r => r.scrapedAt < m.scrapedAt - lagSeconds))

/-- Per-source delta: COALESCE(lp.price - pp.prev_price, 0). -/
def deltaIn (ps : List PriceRow) : ℚ :=
  match prevIn ps with
  | some pr => latestPriceIn ps - pr.price
  | none => 0

/-- Per-source percent: CASE WHEN pp.prev_price IS NOT NULL AND
pp.prev_price > 0 THEN ((lp.price - pp.prev_price) / pp.prev_price) * 100
ELSE 0 END. -/
def pctIn (ps : List PriceRow) : ℚ :=
  match prevIn ps with
  | some pr => if 0 < pr.price then (latestPriceIn ps - pr.price) / pr.price * 100 else 0
  | none => 0

/-- One group of card_stats: the per-card aggregates of the frontend query. -/
structure CardStats where
  avgPrice : ℚ
  avgChange : ℚ
  avgChangePercent : ℚ
  sources : String
deriving DecidableEq

def commaSpace : String := ", "

/-- Lexicographic comparison of character lists: the order that ORDER BY
lp.source applies to source names, written out on the character level so
that it is directly executable. -/
def charListLe : List Char → List Char → Bool
  | [], _ => true
  | _ :: _, [] => false
  | a :: as, b :: bs => if a < b then true else if b < a then false else charListLe as bs

/-- Lexicographic order on source names. -/
def sourceLe (a b : String) : Prop := charListLe a.data b.data = true

instance : DecidableRel sourceLe := fun a b => by
  unfold sourceLe; infer_instance

def rowsForSource (rows : List PriceRow) (s : String) : List PriceRow :=
  rows.filter (fun r => r.source == s)

/-- card_stats over the rows of one card: group latest_prices rows (one per
distinct source) joined with previous_prices, and take the AVG aggregates
plus the STRING_AGG(DISTINCT source ORDER BY source) display list.
Returns none when the card has no price row at all (then the LEFT JOIN of
the outer query leaves the stats columns NULL). -/
def statsOfRows (rows : List PriceRow) : Option CardStats :=
  let srcs := (rows.map PriceRow.source).dedup
  if srcs.isEmpty then none
  else some
    { avgPrice := (srcs.map (fun s => latestPriceIn (rowsForSource rows s))).sum / (srcs.length : ℚ)
      avgChange := (srcs.map (fun s => deltaIn (rowsForSource rows s))).sum / (srcs.length : ℚ)
      avgChangePercent := (srcs.map (fun s => pctIn (rowsForSource rows s))).sum / (srcs.length : ℚ)
      sources := String.intercalate commaSpace (srcs.insertionSort sourceLe) }

def cardStats (prices : List PriceRow) (cid : Nat) : Option CardStats :=
  statsOfRows (prices.filter (fun r => r.cardId == cid))

/-- ORDER BY cs.avg_price DESC, c.updated_at DESC as a relation: a sorts no
later than b. -/
def viewOrder (a b : Card) : Prop :=
  b.price < a.price ∨ (a.price = b.price ∧ b.updatedAt ≤ a.updatedAt)

instance : DecidableRel viewOrder := fun a b => by
  unfold viewOrder; infer_instance

instance : IsTrans Card viewOrder := by
  constructor
  intro a b c hab hbc
  rcases hab with h1 | ⟨h1, h2⟩ <;> rcases hbc with h3 | ⟨h3, h4⟩
  · exact Or.inl (lt_trans h3 h1)
  · exact Or.inl (h3 ▸ h1)
  · exact Or.inl (h1 ▸ h3)
  · exact Or.inr ⟨h1.trans h3, le_trans h4 h2⟩

instance : IsTotal Card viewOrder := by
  constructor
  intro a b
  rcases lt_trichotomy a.price b.price with h | h | h
  · exact Or.inr (Or.inl h)
  · rcases le_total a.updatedAt b.updatedAt with h2 | h2
    · exact Or.inr (Or.inr ⟨h.symm, h2⟩)
    · exact Or.inl (Or.inr ⟨h, h2⟩)
  · exact Or.inl (Or.inl h)

def mkCard (c : CardRow) (cs : CardStats) : Card :=
  ⟨c.id, c.name, c.setName, c.cardNumber, c.rarity, c.condition,
    cs.avgPrice, cs.avgChange, cs.avgChangePercent, cs.sources, c.createdAt, c.updatedAt⟩

/-- GetCardsForFrontend: the full derived-view query.  cards LEFT JOIN
card_stats, WHERE avg_price IS NOT NULL AND avg_price > 0, ORDER BY
avg_price DESC, updated_at DESC, LIMIT 100. -/
def GetCardsForFrontend (st : Database) : List Card :=
  let views := st.cards.filterMap (fun c =>
    match cardStats st.prices c.id with
    | none => none
    | some cs => if 0 < cs.avgPrice then some (mkCard c cs) else none)
  (views.insertionSort viewOrder).take queryLimit

/-! ### Distribution hub (websocket Hub of dg.go) -/

/-- A connected observer: the Client struct.  The send channel is modelled by
its buffered content (queue) together with its fixed buffer capacity; id
stands for the pointer identity of the Go object. -/
structure Client where
  id : Nat
  capacity : Nat
  queue : List (List Card)
deriving DecidableEq

/-- handleWebSocket creates every client with a send buffer of capacity 256. -/
def handleWebSocketClient (n : Nat) : Client := ⟨n, 256, []⟩

/-- The hub state: the set of registered clients (h.clients).  Only the run
loop reads or writes it when handling an event. -/
structure Hub where
  clients : List Client
deriving DecidableEq

/-- A non-blocking send on the client send channel (select with default in
Hub.run): enqueue when the buffer has room, otherwise fail. -/
def trySend (m : List Card) (c : Client) : Option Client :=
  if c.queue.length < c.capacity then some { c with queue := c.queue ++ [m] } else none

/-- The broadcast arm of Hub.run: for every registered client attempt a
non-blocking send; a client whose buffer is full is closed and removed from
the registry (slow-consumer eviction). -/
def Hub.runBroadcast (h : Hub) (m : List Card) : Hub :=
  ⟨h.clients.filterMap (trySend m)⟩

/-- The register arm of Hub.run. -/
def Hub.runRegister (h : Hub) (c : Client) : Hub :=
  ⟨h.clients ++ [c]⟩

/-- The unregister arm of Hub.run: remove the client and close its channel
(idempotent when already removed). -/
def Hub.runUnregister (h : Hub) (cid : Nat) : Hub :=
  ⟨h.clients.filter (fun c => !(c.id == cid))⟩

/-- newHub: broadcast is make(chan []byte), an unbuffered channel. -/
def newHubBroadcastCapacity : Nat := 0

/-- Result of one broadcastUpdate call: the hub state afterwards and the
payload the hub loop received from the intake channel, if any. -/
structure BroadcastOutcome where
  hub : Hub
  delivered : Option (List Card)
deriving DecidableEq

/-- broadcastUpdate: a non-blocking send of the snapshot on the unbuffered
broadcast channel (select with default).  The send succeeds only when the
hub loop is currently blocked receiving (or the channel had buffer room,
which capacity 0 rules out); otherwise the default arm only logs and the
payload is gone.  The function returns no error in either case. -/
def broadcastUpdate (loopReady : Bool) (h : Hub) (cards : List Card) : BroadcastOutcome :=
  if loopReady || decide (0 < newHubBroadcastCapacity) then
    ⟨h.runBroadcast cards, some cards⟩
  else
    ⟨h, none⟩

/-! ### Ingestion cycle (Scraper.ScrapePrices, seedSampleData, handleScrapeNow) -/

def usd : String := "USD"

def sampleURL : String := "https://example.com/sample-data"

def nearMint : String := "Near Mint"

def sv151 : String := "Scarlet & Violet 151"

def tcgSource : String := "TCGPlayer"

def pcSource : String := "PriceCharting"

/-- The fixed sample batch of seedSampleData: three cards, each with one
TCGPlayer and one PriceCharting price whose variance term reads the write
clock (time.Now().Unix() mod a small constant). -/
def sampleCards (now : Int) : List (CardInput × List (String × ℚ)) :=
  [(⟨"Charizard ex", sv151, "", "Special Illustration Rare", nearMint⟩,
      [(tcgSource, 389.99 + ((now % 20 : Int) : ℚ) - 10),
       (pcSource, 395.50 + ((now % 15 : Int) : ℚ) - 7)]),
   (⟨"Pikachu ex", sv151, "", "Ultra Rare", nearMint⟩,
      [(tcgSource, 124.50 + ((now % 10 : Int) : ℚ) - 5),
       (pcSource, 128.75 + ((now % 8 : Int) : ℚ) - 4)]),
   (⟨"Mew ex", sv151, "", "Secret Rare", nearMint⟩,
      [(tcgSource, 156.75 + ((now % 12 : Int) : ℚ) - 6),
       (pcSource, 162.25 + ((now % 9 : Int) : ℚ) - 4)])]

/-- Seed one sample card: upsert the card, then append each price for the
returned id, skipping (logging) failed inserts. -/
def seedOne (now : Int) (st : Database) (e : CardInput × List (String × ℚ)) : Database :=
  let r := InsertCard now st e.1
  e.2.foldl (fun acc sp => insertPriceSkip now acc ⟨r.1, sp.1, sp.2, usd, sampleURL⟩) r.2

/-- seedSampleData: the collector fallback writing the fixed sample batch. -/
def seedSampleData (now : Int) (st : Database) : Database :=
  (sampleCards now).foldl (seedOne now) st

def storeUnreachableMsg : String := "failed to query cards"

/-- The GetCardsForFrontend call as the cycle sees it: when the ledger is
unreachable the query reports an error instead of a result set. -/
def GetCardsChecked : Option Database → Except String (List Card)
  | none => Except.error storeUnreachableMsg
  | some st => Except.ok (GetCardsForFrontend st)

/-- Everything observable about one ScrapePrices run: the store afterwards,
the hub afterwards, what reached the hub intake, and the returned error. -/
structure CycleOutcome where
  db : Option Database
  hub : Hub
  sentToHub : Option (List Card)
  result : Except String Unit

/-- Scraper.ScrapePrices: seed/refresh the sample data (errors are logged and
skipped), query the derived views, and on success hand the snapshot to
broadcastUpdate; on query failure return the error without broadcasting. -/
def ScrapePrices (now : Int) (loopReady : Bool) (h : Hub) (db : Option Database) : CycleOutcome :=
  let seeded := db.map (seedSampleData now)
  match GetCardsChecked seeded with
  | Except.error e => ⟨seeded, h, none, Except.error e⟩
  | Except.ok cards =>
    let out := broadcastUpdate loopReady h cards
    ⟨seeded, out.hub, out.delivered, Except.ok ()⟩

/-- What handleScrapeNow tells the caller. -/
structure TriggerOutcome where
  startsNewCycle : Bool
  status : String
deriving DecidableEq

def scrapingStartedMsg : String := "scraping started"

/-- handleScrapeNow: the POST /api/scrape handler.  It spawns a new scrape
goroutine unconditionally and acknowledges with a fixed status; the source
keeps no in-flight flag, so the decision cannot and does not depend on
whether a cycle is already running (the parameter records that state of
the world and is ignored, as the handler ignores it). -/
def handleScrapeNow (_cycleInFlight : Bool) : TriggerOutcome :=
  ⟨true, scrapingStartedMsg⟩

/-! ### Batched appends with write-time stamping (for the round-trip claims) -/

/-- Append a batch of observations one after the other, the clock ticking
between writes: each row is stamped with the instant of its own insert,
exactly as InsertPrice stamps time.Now(). -/
def insertAll : Int → Database → List PriceInput → Database
  | _, st, [] => st
  | t, st, p :: rest => insertAll (t + 1) (insertPriceSkip t st p) rest

/-- The rows such a batch appends when every insert passes the foreign-key
check. -/
def stampRows : Int → List PriceInput → List PriceRow
  | _, [] => []
  | t, p :: rest => mkPriceRow t p :: stampRows (t + 1) rest

/-- The current price the frontend query reports for one item. -/
def currentPriceOf (st : Database) (cid : Nat) : Option ℚ :=
  ((GetCardsForFrontend st).find? (fun v => v.id == cid)).map Card.price

end PokeScraper


namespace PokeScraper

/-! ### Concrete states used by the scenario theorems and witnesses -/

def srcA : String := "A"

def srcB : String := "B"

def srcS : String := "S"

def rarePromo : String := "Promo"

/-- Natural key of the scenario item. -/
def scenarioCard : CardInput := ⟨"X", "SetX", "001", "Rare", nearMint⟩

/-- The literal aggregation scenario, built through the write operations:
source A priced 100 at t0 = 0 and 110 at t0 + 2h = 7200, source B priced
only 50 at t0 + 2h; the lag threshold is 1h = 3600. -/
def scenarioState : Database :=
  let r := InsertCard 0 emptyDatabase scenarioCard
  insertPriceSkip 7200
    (insertPriceSkip 7200
      (insertPriceSkip 0 r.2 ⟨r.1, srcA, 100, usd, ""⟩)
      ⟨r.1, srcA, 110, usd, ""⟩)
    ⟨r.1, srcB, 50, usd, ""⟩

/-- A store holding just the scenario item (id 1) and no observations yet. -/
def orderState : Database := (InsertCard 0 emptyDatabase scenarioCard).2

def negInput : PriceInput := ⟨1, srcS, -5, usd, ""⟩

def negInput2 : PriceInput := ⟨1, srcS, -7, usd, ""⟩

/-- Two observations for the same source, in the two insertion orders. -/
def c6XL1 : List PriceInput := [⟨1, srcS, 1, usd, ""⟩, ⟨1, srcS, 2, usd, ""⟩]

def c6XL2 : List PriceInput := [⟨1, srcS, 2, usd, ""⟩, ⟨1, srcS, 1, usd, ""⟩]

/-- One observation per source, in the two insertion orders. -/
def c6L1 : List PriceInput := [⟨1, srcA, 3, usd, ""⟩, ⟨1, srcB, 5, usd, ""⟩]

def c6L2 : List PriceInput := [⟨1, srcB, 5, usd, ""⟩, ⟨1, srcA, 3, usd, ""⟩]

/-- Three registered observers: client 2 has a full outbound queue (capacity 1,
one payload buffered), clients 1 and 3 have room. -/
def hubW : Hub := ⟨[⟨1, 2, []⟩, ⟨2, 1, [[]]⟩, ⟨3, 2, []⟩]⟩

/-- The view the frontend query produces for the aggregation scenario. -/
def c7View : Card := ⟨1, "X", "SetX", "001", "Rare", nearMint, 80, 5, 5, "A, B", 0, 0⟩

end PokeScraper

namespace PokeScraper

/-! ### Order facts about the source-name comparison -/

theorem charListLe_total : ∀ xs ys : List Char,
    charListLe xs ys = true ∨ charListLe ys xs = true := by
  intro xs
  induction xs with
  | nil => intro ys; left; rfl
  | cons a as ih =>
    intro ys
    cases ys with
    | nil => right; rfl
    | cons b bs =>
      rcases lt_trichotomy a b with h | h | h
      · left; simp [charListLe, h]
      · subst h
        rcases ih bs with h2 | h2 <;> simp [charListLe, lt_irrefl, h2]
      · right; simp [charListLe, h]

theorem charListLe_trans : ∀ xs ys zs : List Char,
    charListLe xs ys = true → charListLe ys zs = true → charListLe xs zs = true := by
  intro xs
  induction xs with
  | nil => intro ys zs h1 h2; rfl
  | cons a as ih =>
    intro ys zs h1 h2
    cases ys with
    | nil => simp [charListLe] at h1
    | cons b bs =>
      cases zs with
      | nil => simp [charListLe] at h2
      | cons c cs =>
        rcases lt_trichotomy a b with hab | hab | hab
        · rcases lt_trichotomy b c with hbc | hbc | hbc
          · simp [charListLe, lt_trans hab hbc]
          · subst hbc; simp [charListLe, hab]
          · simp [charListLe, asymm hbc, hbc] at h2
        · subst hab
          simp only [charListLe, lt_irrefl, if_false] at h1
          rcases lt_trichotomy a c with hac | hac | hac
          · simp [charListLe, hac]
          · subst hac
            simp only [charListLe, lt_irrefl, if_false] at h2 ⊢
            exact ih bs cs h1 h2
          · simp [charListLe, asymm hac, hac] at h2
        · simp [charListLe, asymm hab, hab] at h1

theorem charListLe_antisymm : ∀ xs ys : List Char,
    charListLe xs ys = true → charListLe ys xs = true → xs = ys := by
  intro xs
  induction xs with
  | nil => intro ys h1 h2
           cases ys with
           | nil => rfl
           | cons b bs => simp [charListLe] at h2
  | cons a as ih =>
    intro ys h1 h2
    cases ys with
    | nil => simp [charListLe] at h1
    | cons b bs =>
      rcases lt_trichotomy a b with hab | hab | hab
      · simp [charListLe, asymm hab, hab] at h2
      · subst hab
        simp only [charListLe, lt_irrefl, if_false] at h1 h2
        rw [ih bs h1 h2]
      · simp [charListLe, asymm hab, hab] at h1

instance : IsTotal String sourceLe :=
  ⟨fun a b => charListLe_total a.data b.data⟩

instance : IsTrans String sourceLe :=
  ⟨fun a b c => charListLe_trans a.data b.data c.data⟩

instance : IsAntisymm String sourceLe := by
  constructor
  intro a b h1 h2
  have h := charListLe_antisymm a.data b.data h1 h2
  cases a; cases b
  exact congrArg String.mk (by simpa using h)

end PokeScraper

namespace PokeScraper

/-! ### Store-operation helper lemmas -/

theorem insertCard_prices (now : Int) (st : Database) (c : CardInput) :
    ((InsertCard now st c).2).prices = st.prices := by
  unfold InsertCard
  split <;> rfl

theorem insertCard_mem_id (now : Int) (st : Database) (c : CardInput) :
    ((InsertCard now st c).2).cards.any (fun a => a.id == (InsertCard now st c).1) = true := by
  cases hf : st.cards.find? (fun a => sameKey a c) with
  | none =>
    simp only [InsertCard, hf]
    rw [List.any_append]
    simp
  | some a =>
    simp only [InsertCard, hf]
    rw [List.any_eq_true]
    have ha := List.mem_of_find?_eq_some hf
    have hp := List.find?_some hf
    exact ⟨_, List.mem_map_of_mem _ ha, by simp [hp]⟩

theorem insertPriceSkip_cards (now : Int) (st : Database) (p : PriceInput) :
    (insertPriceSkip now st p).cards = st.cards := by
  cases h : st.cards.any (fun a => a.id == p.cardId) <;>
    simp [insertPriceSkip, InsertPrice, h]

theorem insertPriceSkip_ok (now : Int) (st : Database) (p : PriceInput)
    (h : st.cards.any (fun a => a.id == p.cardId) = true) :
    insertPriceSkip now st p = { st with prices := st.prices ++ [mkPriceRow now p] } := by
  simp [insertPriceSkip, InsertPrice, h]

theorem foldPrices_spec (now : Int) (cid : Nat) :
    ∀ (ps : List (String × ℚ)) (acc : Database),
      acc.cards.any (fun a => a.id == cid) = true →
      ((ps.foldl (fun a2 sp => insertPriceSkip now a2 ⟨cid, sp.1, sp.2, usd, sampleURL⟩) acc).cards
          = acc.cards ∧
        (ps.foldl (fun a2 sp =>
            insertPriceSkip now a2 ⟨cid, sp.1, sp.2, usd, sampleURL⟩) acc).prices.length
          = acc.prices.length + ps.length) := by
  intro ps
  induction ps with
  | nil => intro acc _; exact ⟨rfl, by simp⟩
  | cons sp rest ih =>
    intro acc h
    rw [List.foldl_cons]
    have hcards := insertPriceSkip_cards now acc ⟨cid, sp.1, sp.2, usd, sampleURL⟩
    have h2 : (insertPriceSkip now acc ⟨cid, sp.1, sp.2, usd, sampleURL⟩).cards.any
        (fun a => a.id == cid) = true := by rw [hcards]; exact h
    rcases ih _ h2 with ⟨ha, hb⟩
    refine ⟨by rw [ha, hcards], ?_⟩
    have hlen : (insertPriceSkip now acc ⟨cid, sp.1, sp.2, usd, sampleURL⟩).prices.length
        = acc.prices.length + 1 := by
      rw [insertPriceSkip_ok now acc _ h]
      simp
    rw [hb, hlen]
    simp only [List.length_cons]
    omega

theorem seedOne_prices_length (now : Int) (st : Database) (e : CardInput × List (String × ℚ)) :
    (seedOne now st e).prices.length = st.prices.length + e.2.length := by
  simp only [seedOne]
  have h := insertCard_mem_id now st e.1
  have h2 := (foldPrices_spec now (InsertCard now st e.1).1 e.2 (InsertCard now st e.1).2 h).2
  rw [h2, insertCard_prices]

theorem seedSampleData_prices_length (now : Int) (st : Database) :
    (seedSampleData now st).prices.length = st.prices.length + 6 := by
  simp only [seedSampleData, sampleCards, List.foldl_cons, List.foldl_nil]
  rw [seedOne_prices_length, seedOne_prices_length, seedOne_prices_length]
  simp only [List.length_cons, List.length_nil]

/-! ### Claim theorems (first group) -/

/-- C1: in the literal aggregation scenario (source A priced 100 at t0 and 110
at t0 + 2h, source B priced 50 at t0 + 2h, lag threshold 1h) the derived-view
query returns one view for the item with current price 80 = (110 + 50) / 2,
change 5 = mean of the per-source deltas (10 for A, 0 for B whose reference
is missing) and percent change 5 = mean of the per-source percents. -/
theorem c1_aggregation_scenario :
    (GetCardsForFrontend scenarioState).map (fun v => (v.id, v.price, v.change, v.changePercent))
      = [(1, 80, 5, 5)] := by
  with_unfolding_all decide

/-- C2, counterexample: a trigger arriving while a cycle is in flight is not
coalesced into an already-running acknowledgment; the handler starts a new
cycle and reports the fixed started status. -/
theorem c2_counterexample :
    (handleScrapeNow true).startsNewCycle = true ∧
      ¬((handleScrapeNow true).status = "already running") := by
  exact ⟨rfl, by decide⟩

/-- C2, amended: handleScrapeNow has no single-flight guard at all.  Whatever
the in-flight state, it starts a new cycle and acknowledges with the fixed
started status, and two back-to-back cycles write two full sample batches
(6 ledger rows each), not one. -/
theorem c2_amended_no_single_flight :
    (∀ cycleInFlight : Bool, handleScrapeNow cycleInFlight = ⟨true, scrapingStartedMsg⟩) ∧
    (∀ (st : Database) (h : Hub) (r1 r2 : Bool) (n1 n2 : Int),
      ((ScrapePrices n2 r2 (ScrapePrices n1 r1 h (some st)).hub
          (ScrapePrices n1 r1 h (some st)).db).db).map (fun d => d.prices.length)
        = some (st.prices.length + 12)) := by
  refine ⟨fun _ => rfl, fun st h r1 r2 n1 n2 => ?_⟩
  show some ((seedSampleData n2 (seedSampleData n1 st)).prices.length)
      = some (st.prices.length + 12)
  rw [seedSampleData_prices_length, seedSampleData_prices_length]

/-- C3, counterexample: an observation with a negative price is not rejected;
InsertPrice succeeds and appends the row unchanged. -/
theorem c3_counterexample :
    negInput.price < 0 ∧
      InsertPrice 0 orderState negInput =
        Except.ok { orderState with prices := orderState.prices ++ [mkPriceRow 0 negInput] } := by
  exact ⟨by with_unfolding_all decide, rfl⟩

/-- C3, amended: InsertPrice performs no price validation.  Whenever the
referenced item exists it appends the observation, negative prices
included; nothing in the store rejects a malformed price. -/
theorem c3_amended_no_validation (now : Int) (st : Database) (p : PriceInput)
    (h : st.cards.any (fun a => a.id == p.cardId) = true) :
    InsertPrice now st p =
      Except.ok { st with prices := st.prices ++ [mkPriceRow now p] } := by
  simp [InsertPrice, h]

theorem c3_amended_witness :
    InsertPrice 3 orderState negInput2 =
      Except.ok { orderState with prices := orderState.prices ++ [mkPriceRow 3 negInput2] } :=
  c3_amended_no_validation 3 orderState negInput2 (by decide)

/-- C8: the derived-view result is sorted by descending current price with
ties broken by descending last-modified timestamp, and holds at most 100
views. -/
theorem c8_ranking_and_limit (st : Database) :
    (GetCardsForFrontend st).Pairwise viewOrder ∧ (GetCardsForFrontend st).length ≤ 100 := by
  constructor
  · exact (List.sorted_insertionSort viewOrder _).sublist (List.take_sublist _ _)
  · simp only [GetCardsForFrontend, List.length_take]
    exact Nat.min_le_left _ _

/-- C9: when the derived-view query fails (store unreachable), the cycle
aborts with the error, nothing reaches the hub intake and the hub state is
untouched: no partial or empty snapshot replaces the prior view. -/
theorem c9_store_unavailable_aborts (now : Int) (ready : Bool) (h : Hub) :
    ScrapePrices now ready h none = ⟨none, h, none, Except.error storeUnreachableMsg⟩ := rfl

/-- C10: publishing is lossy at the hub intake.  broadcastUpdate sends on the
unbuffered broadcast channel without blocking, so when the hub loop is not
ready to receive, the payload is dropped whole: no client queue changes, no
observer receives it, and the caller gets no error (the function merely
returns). -/
theorem c10_broadcast_lossy_intake (h : Hub) (cards : List Card) :
    broadcastUpdate false h cards = ⟨h, none⟩ ∧ newHubBroadcastCapacity = 0 :=
  ⟨rfl, rfl⟩

end PokeScraper

namespace PokeScraper

/-! ### Hub fan-out (C4) -/

/-- C4: processing a publish event enqueues the payload for every observer
with queue room and unregisters exactly the observers whose queues are
full; distinct ids stand for the distinct Go client objects. -/
theorem c4_hub_fanout (h : Hub) (m : List Card) (c : Client)
    (hids : (h.clients.map Client.id).Nodup) (hc : c ∈ h.clients) :
    (c.queue.length < c.capacity →
      { c with queue := c.queue ++ [m] } ∈ (h.runBroadcast m).clients) ∧
    (c.capacity ≤ c.queue.length →
      ∀ d ∈ (h.runBroadcast m).clients, d.id ≠ c.id) := by
  constructor
  · intro hlt
    unfold Hub.runBroadcast
    exact List.mem_filterMap.mpr ⟨c, hc, by unfold trySend; rw [if_pos hlt]⟩
  · intro hfull d hd hdc
    unfold Hub.runBroadcast at hd
    rcases List.mem_filterMap.mp hd with ⟨c0, hc0, hsend⟩
    have hid : c0.id = d.id := by
      unfold trySend at hsend
      by_cases hroom : c0.queue.length < c0.capacity
      · rw [if_pos hroom] at hsend
        cases hsend
        rfl
      · rw [if_neg hroom] at hsend
        cases hsend
    have hc0c : c0 = c :=
      List.inj_on_of_nodup_map hids hc0 hc (hid.trans hdc)
    subst hc0c
    unfold trySend at hsend
    rw [if_neg (not_lt.mpr hfull)] at hsend
    cases hsend

theorem c4_hub_fanout_witness :
    ((⟨1, 2, [[]]⟩ : Client) ∈ (hubW.runBroadcast []).clients) ∧
    (∀ d ∈ (hubW.runBroadcast []).clients, d.id ≠ 2) := by
  constructor
  · exact (c4_hub_fanout hubW [] ⟨1, 2, []⟩ (by decide) (by decide)).1 (by decide)
  · exact (c4_hub_fanout hubW [] ⟨2, 1, [[]]⟩ (by decide) (by decide)).2 (by decide)

/-! ### Upsert idempotence (C5) -/

theorem find?_append_of_none {α : Type} (p : α → Bool) (l1 l2 : List α)
    (h : ∀ a ∈ l1, p a = false) : (l1 ++ l2).find? p = l2.find? p := by
  induction l1 with
  | nil => rfl
  | cons a as ih =>
    rw [List.cons_append, List.find?_cons, h a (by simp)]
    exact ih (fun x hx => h x (by simp [hx]))

theorem insertCard_fresh (now : Int) (st : Database) (c : CardInput)
    (hf : st.cards.find? (fun x => sameKey x c) = none) :
    InsertCard now st c =
      (st.nextCardId,
        { st with
          cards := st.cards ++
            [⟨st.nextCardId, c.name, c.setName, c.cardNumber, c.rarity, c.condition, now, now⟩],
          nextCardId := st.nextCardId + 1 }) := by
  simp only [InsertCard, hf]

theorem insertCard_found (now : Int) (st : Database) (c : CardInput) (a : CardRow)
    (hf : st.cards.find? (fun x => sameKey x c) = some a) :
    InsertCard now st c =
      (a.id, { st with cards := st.cards.map (fun x =>
          if sameKey x c then { x with rarity := c.rarity, updatedAt := now } else x) }) := by
  simp only [InsertCard, hf]

/-- C5: InsertCard is idempotent on the natural key.  For a previously unseen
key the first call inserts one fresh row with the next SERIAL id; a second
call with the same key and a different rarity returns the same id and
leaves exactly one row for that key, carrying the second rarity (and the
refreshed last-modified timestamp). -/
theorem c5_upsert_idempotent (st : Database) (c : CardInput) (r2 : String) (n1 n2 : Int)
    (hfresh : ∀ a ∈ st.cards, sameKey a c = false) :
    (InsertCard n1 st c).1 = st.nextCardId ∧
    ((InsertCard n1 st c).2).cards =
      st.cards ++ [⟨st.nextCardId, c.name, c.setName, c.cardNumber, c.rarity, c.condition, n1, n1⟩] ∧
    (InsertCard n2 ((InsertCard n1 st c).2) { c with rarity := r2 }).1 = (InsertCard n1 st c).1 ∧
    ((InsertCard n2 ((InsertCard n1 st c).2) { c with rarity := r2 }).2).cards.filter
        (fun a => sameKey a c) =
      [⟨st.nextCardId, c.name, c.setName, c.cardNumber, r2, c.condition, n1, n2⟩] := by
  have hf1 : st.cards.find? (fun a => sameKey a c) = none :=
    List.find?_eq_none.mpr (fun a ha => by simp [hfresh a ha])
  have hrow : sameKey
      (⟨st.nextCardId, c.name, c.setName, c.cardNumber, c.rarity, c.condition, n1, n1⟩ : CardRow)
      c = true := by
    simp [sameKey]
  have hkey2 : ∀ x : CardRow, sameKey x { c with rarity := r2 } = sameKey x c :=
    fun x => rfl
  have hstep1 := insertCard_fresh n1 st c hf1
  have hf2 : ((InsertCard n1 st c).2).cards.find? (fun x => sameKey x { c with rarity := r2 })
      = some ⟨st.nextCardId, c.name, c.setName, c.cardNumber, c.rarity, c.condition, n1, n1⟩ := by
    rw [hstep1]
    show (st.cards ++ [_]).find? _ = _
    rw [find?_append_of_none _ st.cards _ (fun a ha => by rw [hkey2 a]; exact hfresh a ha)]
    rw [List.find?_cons]
    rw [show sameKey
      (⟨st.nextCardId, c.name, c.setName, c.cardNumber, c.rarity, c.condition, n1, n1⟩ : CardRow)
      { c with rarity := r2 } = true from hrow]
  have hstep2 := insertCard_found n2 ((InsertCard n1 st c).2) { c with rarity := r2 } _ hf2
  have hmap : st.cards.map (fun x =>
      if sameKey x { c with rarity := r2 } then
        { x with rarity := ({ c with rarity := r2 } : CardInput).rarity, updatedAt := n2 }
      else x) = st.cards :=
    (List.map_congr_left (fun a ha => by
      rw [hkey2 a]
      simp [hfresh a ha])).trans (List.map_id st.cards)
  refine ⟨by rw [hstep1], by rw [hstep1], by rw [hstep2, hstep1], ?_⟩
  rw [hstep2]
  show (((InsertCard n1 st c).2).cards.map _).filter _ = _
  rw [hstep1]
  show ((st.cards ++ [_]).map _).filter _ = _
  rw [List.map_append, List.filter_append, hmap]
  rw [List.filter_eq_nil_iff.mpr (fun a ha => by simp [hfresh a ha])]
  simp only [List.map_cons, List.map_nil, List.nil_append]
  rw [show (if sameKey
      (⟨st.nextCardId, c.name, c.setName, c.cardNumber, c.rarity, c.condition, n1, n1⟩ : CardRow)
      { c with rarity := r2 } then
        (⟨st.nextCardId, c.name, c.setName, c.cardNumber, r2, c.condition, n1, n2⟩ : CardRow)
      else ⟨st.nextCardId, c.name, c.setName, c.cardNumber, c.rarity, c.condition, n1, n1⟩)
      = (⟨st.nextCardId, c.name, c.setName, c.cardNumber, r2, c.condition, n1, n2⟩ : CardRow) from
    by rw [if_pos]; exact hrow]
  rw [List.filter_cons]
  rw [show sameKey
    (⟨st.nextCardId, c.name, c.setName, c.cardNumber, r2, c.condition, n1, n2⟩ : CardRow) c
    = true from by simp [sameKey]]
  rfl

end PokeScraper

namespace PokeScraper

theorem c5_upsert_idempotent_witness :
    (InsertCard 5 emptyDatabase scenarioCard).1 = emptyDatabase.nextCardId ∧
    ((InsertCard 5 emptyDatabase scenarioCard).2).cards =
      emptyDatabase.cards ++ [⟨emptyDatabase.nextCardId, scenarioCard.name, scenarioCard.setName,
        scenarioCard.cardNumber, scenarioCard.rarity, scenarioCard.condition, 5, 5⟩] ∧
    (InsertCard 9 ((InsertCard 5 emptyDatabase scenarioCard).2)
        { scenarioCard with rarity := rarePromo }).1 = (InsertCard 5 emptyDatabase scenarioCard).1 ∧
    ((InsertCard 9 ((InsertCard 5 emptyDatabase scenarioCard).2)
        { scenarioCard with rarity := rarePromo }).2).cards.filter
        (fun a => sameKey a scenarioCard) =
      [⟨emptyDatabase.nextCardId, scenarioCard.name, scenarioCard.setName, scenarioCard.cardNumber,
        rarePromo, scenarioCard.condition, 5, 9⟩] :=
  c5_upsert_idempotent emptyDatabase scenarioCard rarePromo 5 9 (by decide)

/-! ### Order-independence analysis of the aggregation (C6) -/

theorem insertAll_cards : ∀ (l : List PriceInput) (t : Int) (st : Database),
    (insertAll t st l).cards = st.cards := by
  intro l
  induction l with
  | nil => intro t st; rfl
  | cons p rest ih =>
    intro t st
    simp only [insertAll]
    rw [ih, insertPriceSkip_cards]

theorem insertAll_prices (cid : Nat) : ∀ (l : List PriceInput) (t : Int) (st : Database),
    (∀ p ∈ l, p.cardId = cid) →
    st.cards.any (fun a => a.id == cid) = true →
    (insertAll t st l).prices = st.prices ++ stampRows t l := by
  intro l
  induction l with
  | nil => intro t st _ _; simp [insertAll, stampRows]
  | cons p rest ih =>
    intro t st hall hany
    have hpc : p.cardId = cid := hall p (by simp)
    have hok : st.cards.any (fun a => a.id == p.cardId) = true := by rw [hpc]; exact hany
    simp only [insertAll, stampRows]
    rw [ih (t + 1) (insertPriceSkip t st p) (fun q hq => hall q (by simp [hq]))
      (by rw [insertPriceSkip_cards]; exact hany)]
    rw [insertPriceSkip_ok t st p hok]
    simp

theorem stampRows_sources : ∀ (l : List PriceInput) (t : Int),
    (stampRows t l).map PriceRow.source = l.map PriceInput.source := by
  intro l
  induction l with
  | nil => intro t; rfl
  | cons p rest ih =>
    intro t
    simp only [stampRows, List.map_cons]
    rw [ih]
    rfl

theorem stampRows_filter_cardId_eq (cid : Nat) : ∀ (l : List PriceInput) (t : Int),
    (∀ p ∈ l, p.cardId = cid) →
    (stampRows t l).filter (fun r => r.cardId == cid) = stampRows t l := by
  intro l
  induction l with
  | nil => intro t _; rfl
  | cons p rest ih =>
    intro t hall
    simp only [stampRows, List.filter_cons]
    rw [show ((mkPriceRow t p).cardId == cid) = true from by
      simp [mkPriceRow, hall p (by simp)]]
    simp only [if_true]
    rw [ih (t + 1) (fun q hq => hall q (by simp [hq]))]

theorem stampRows_filter_cardId_ne (cid x : Nat) (hx : x ≠ cid) :
    ∀ (l : List PriceInput) (t : Int),
    (∀ p ∈ l, p.cardId = cid) →
    (stampRows t l).filter (fun r => r.cardId == x) = [] := by
  intro l
  induction l with
  | nil => intro t _; rfl
  | cons p rest ih =>
    intro t hall
    simp only [stampRows, List.filter_cons]
    rw [show ((mkPriceRow t p).cardId == x) = false from by
      simp [mkPriceRow, hall p (by simp)]
      exact fun he => hx he.symm]
    simp only [Bool.false_eq_true, if_false]
    exact ih (t + 1) (fun q hq => hall q (by simp [hq]))

theorem stampRows_filter_source_nil (s : String) : ∀ (l : List PriceInput) (t : Int),
    s ∉ l.map PriceInput.source →
    (stampRows t l).filter (fun r => r.source == s) = [] := by
  intro l
  induction l with
  | nil => intro t _; rfl
  | cons p rest ih =>
    intro t hs
    simp only [List.map_cons, List.mem_cons, not_or] at hs
    simp only [stampRows, List.filter_cons]
    rw [show ((mkPriceRow t p).source == s) = false from by
      simp [mkPriceRow]
      exact fun he => hs.1 he.symm]
    simp only [Bool.false_eq_true, if_false]
    exact ih (t + 1) hs.2

theorem latestPriceIn_single (r : PriceRow) : latestPriceIn [r] = r.price := rfl

theorem prevIn_single (r : PriceRow) : prevIn [r] = none := by
  show latestIn ([r].filter (fun x => x.scrapedAt < r.scrapedAt - lagSeconds)) = none
  rw [List.filter_cons, List.filter_nil]
  rw [show (decide (r.scrapedAt < r.scrapedAt - lagSeconds)) = false from by
    rw [decide_eq_false_iff_not]
    unfold lagSeconds
    omega]
  rfl

theorem deltaIn_single (r : PriceRow) : deltaIn [r] = 0 := by
  unfold deltaIn
  rw [prevIn_single]

theorem pctIn_single (r : PriceRow) : pctIn [r] = 0 := by
  unfold pctIn
  rw [prevIn_single]

theorem sum_map_zero {α : Type} : ∀ l : List α, (l.map (fun _ => (0:ℚ))).sum = 0 := by
  intro l
  induction l with
  | nil => rfl
  | cons a as ih => simp [ih]

end PokeScraper

namespace PokeScraper

/-- With one observation per source, each source group of the stamped batch is
a singleton, so the per-source latest price is that observation and the
delta and percent are zero (the only row is also the max, never older than
max minus the lag). -/
theorem perSource_stamp : ∀ (l : List PriceInput) (t : Int),
    (l.map PriceInput.source).Nodup →
    ((l.map PriceInput.source).map
        (fun s => latestPriceIn (rowsForSource (stampRows t l) s)) = l.map PriceInput.price ∧
      (l.map PriceInput.source).map
        (fun s => deltaIn (rowsForSource (stampRows t l) s)) = l.map (fun _ => (0:ℚ)) ∧
      (l.map PriceInput.source).map
        (fun s => pctIn (rowsForSource (stampRows t l) s)) = l.map (fun _ => (0:ℚ))) := by
  intro l
  induction l with
  | nil => intro t _; exact ⟨rfl, rfl, rfl⟩
  | cons p rest ih =>
    intro t hnd
    have hns : p.source ∉ rest.map PriceInput.source := (List.nodup_cons.mp hnd).1
    have hnd2 : (rest.map PriceInput.source).Nodup := (List.nodup_cons.mp hnd).2
    have hhead : rowsForSource (stampRows t (p :: rest)) p.source = [mkPriceRow t p] := by
      simp only [stampRows, rowsForSource, List.filter_cons]
      rw [show ((mkPriceRow t p).source == p.source) = true from by simp [mkPriceRow]]
      simp only [if_true]
      rw [show (stampRows (t + 1) rest).filter (fun r => r.source == p.source) = [] from
        stampRows_filter_source_nil p.source rest (t + 1) hns]
    have htail : ∀ s ∈ rest.map PriceInput.source,
        rowsForSource (stampRows t (p :: rest)) s = rowsForSource (stampRows (t + 1) rest) s := by
      intro s hs
      simp only [stampRows, rowsForSource, List.filter_cons]
      rw [show ((mkPriceRow t p).source == s) = false from by
        simp [mkPriceRow]
        exact fun he => hns (he ▸ hs)]
      simp only [Bool.false_eq_true, if_false]
    rcases ih (t + 1) hnd2 with ⟨ih1, ih2, ih3⟩
    refine ⟨?_, ?_, ?_⟩ <;> simp only [List.map_cons]
    · rw [hhead, latestPriceIn_single]
      rw [List.map_congr_left (fun s hs => by rw [htail s hs]), ih1]
      rfl
    · rw [hhead, deltaIn_single]
      rw [List.map_congr_left (fun s hs => by rw [htail s hs]), ih2]
    · rw [hhead, pctIn_single]
      rw [List.map_congr_left (fun s hs => by rw [htail s hs]), ih3]

/-- The card_stats of a stamped one-observation-per-source batch: the current
price is the plain mean of the batch prices, changes are zero, and the
source display is the sorted batch source list. -/
theorem statsOfRows_stamp (l : List PriceInput) (t : Int)
    (hne : l ≠ []) (hnd : (l.map PriceInput.source).Nodup) :
    statsOfRows (stampRows t l) = some
      { avgPrice := (l.map PriceInput.price).sum / (l.length : ℚ)
        avgChange := 0
        avgChangePercent := 0
        sources := String.intercalate commaSpace
          ((l.map PriceInput.source).insertionSort sourceLe) } := by
  rcases perSource_stamp l t hnd with ⟨h1, h2, h3⟩
  have hsrcs : ((stampRows t l).map PriceRow.source).dedup = l.map PriceInput.source := by
    rw [stampRows_sources, List.dedup_eq_self.mpr hnd]
  have hne2 : (l.map PriceInput.source).isEmpty = false := by
    cases l with
    | nil => exact absurd rfl hne
    | cons a as => rfl
  simp only [statsOfRows, hsrcs, hne2, Bool.false_eq_true, if_false]
  rw [h1, h2, h3, sum_map_zero, List.length_map, zero_div]

end PokeScraper

namespace PokeScraper

/-- C6, counterexample: two observations of the same source (prices 1 and 2),
appended in the two possible orders with write-time stamping, give the item
two different current prices (whichever is written last becomes the latest
observation of its source). -/
theorem c6_counterexample :
    currentPriceOf (insertAll 0 orderState c6XL1) 1 ≠
      currentPriceOf (insertAll 0 orderState c6XL2) 1 := by
  with_unfolding_all decide

/-- C6, amended: the aggregation is insertion-order independent when each
source contributes at most one of the appended observations.  Under that
restriction, appending the batch in any order yields the same derived-view
query result — in particular the same current price for the item (the mean
of the batch prices). -/
theorem c6_amended_order_independent (st : Database) (cid : Nat) (t0 : Int)
    (l1 l2 : List PriceInput)
    (hcard : st.cards.any (fun a => a.id == cid) = true)
    (hempty : st.prices.filter (fun r => r.cardId == cid) = [])
    (hall : ∀ p ∈ l1, p.cardId = cid)
    (hnd : (l1.map PriceInput.source).Nodup)
    (hperm : l1.Perm l2) :
    GetCardsForFrontend (insertAll t0 st l1) = GetCardsForFrontend (insertAll t0 st l2) := by
  have hall2 : ∀ p ∈ l2, p.cardId = cid := fun p hp => hall p (hperm.mem_iff.mpr hp)
  have hnd2 : (l2.map PriceInput.source).Nodup := ((hperm.map PriceInput.source).nodup_iff).mp hnd
  have hc1 := insertAll_cards l1 t0 st
  have hc2 := insertAll_cards l2 t0 st
  have hp1 := insertAll_prices cid l1 t0 st hall hcard
  have hp2 := insertAll_prices cid l2 t0 st hall2 hcard
  have hstats : ∀ x : Nat,
      cardStats (insertAll t0 st l1).prices x = cardStats (insertAll t0 st l2).prices x := by
    intro x
    rw [hp1, hp2]
    unfold cardStats
    rw [List.filter_append, List.filter_append]
    by_cases hx : x = cid
    · subst hx
      rw [hempty]
      rw [stampRows_filter_cardId_eq x l1 t0 hall, stampRows_filter_cardId_eq x l2 t0 hall2]
      simp only [List.nil_append]
      by_cases hne : l1 = []
      · have hne2 : l2 = [] := List.perm_nil.mp (hne ▸ hperm).symm
        rw [hne, hne2]
      · have hne2 : l2 ≠ [] := fun h => hne (List.perm_nil.mp (h ▸ hperm))
        rw [statsOfRows_stamp l1 t0 hne hnd, statsOfRows_stamp l2 t0 hne2 hnd2]
        have hsum : (l1.map PriceInput.price).sum = (l2.map PriceInput.price).sum :=
          (hperm.map PriceInput.price).sum_eq
        have hlen : l1.length = l2.length := hperm.length_eq
        have hsrc : (l1.map PriceInput.source).insertionSort sourceLe
            = (l2.map PriceInput.source).insertionSort sourceLe :=
          List.eq_of_perm_of_sorted
            ((List.perm_insertionSort sourceLe _).trans
              ((hperm.map PriceInput.source).trans
                (List.perm_insertionSort sourceLe _).symm))
            (List.sorted_insertionSort sourceLe _) (List.sorted_insertionSort sourceLe _)
        rw [hsum, hlen, hsrc]
    · rw [stampRows_filter_cardId_ne cid x hx l1 t0 hall,
        stampRows_filter_cardId_ne cid x hx l2 t0 hall2]
  simp only [GetCardsForFrontend]
  rw [hc1, hc2]
  rw [List.filterMap_congr (fun c _ => by rw [hstats c.id])]

theorem c6_amended_witness :
    GetCardsForFrontend (insertAll 0 orderState c6L1)
      = GetCardsForFrontend (insertAll 0 orderState c6L2) :=
  c6_amended_order_independent orderState 1 0 c6L1 c6L2 (by decide) (by decide)
    (by decide) (by decide) (by decide)

/-! ### Emission filter of the derived views (C7) -/

/-- C7: every view the derived-view query emits has a positive current price
and at least one contributing observation (hence at least one source); an
item with no observations or a non-positive computed price never appears. -/
theorem c7_filtering (st : Database) (v : Card) (hv : v ∈ GetCardsForFrontend st) :
    0 < v.price ∧ st.prices.filter (fun r => r.cardId == v.id) ≠ [] := by
  have hv2 : v ∈ ((st.cards.filterMap (fun c =>
      match cardStats st.prices c.id with
      | none => none
      | some cs => if 0 < cs.avgPrice then some (mkCard c cs) else none)).insertionSort
        viewOrder).take queryLimit := hv
  have h2 := (List.mem_insertionSort viewOrder).mp ((List.take_sublist _ _).subset hv2)
  rcases List.mem_filterMap.mp h2 with ⟨cr, _, hf⟩
  cases hcs : cardStats st.prices cr.id with
  | none =>
    rw [hcs] at hf
    simp at hf
  | some cs =>
    simp only [hcs] at hf
    by_cases hpos : 0 < cs.avgPrice
    · rw [if_pos hpos] at hf
      have hveq : mkCard cr cs = v := Option.some.inj hf
      subst hveq
      refine ⟨hpos, fun hnil => ?_⟩
      have hnone : cardStats st.prices cr.id = none := by
        unfold cardStats
        rw [show st.prices.filter (fun r => r.cardId == cr.id) = [] from hnil]
        rfl
      rw [hnone] at hcs
      cases hcs
    · rw [if_neg hpos] at hf
      simp at hf

theorem c7_filtering_witness :
    0 < c7View.price ∧ scenarioState.prices.filter (fun r => r.cardId == c7View.id) ≠ [] :=
  c7_filtering scenarioState c7View (by with_unfolding_all decide)

end PokeScraper
